import Mathlib

/-!
Verification development for the `include-bytes-plus` crate (`src/lib.rs`).

The crate is a proc-macro that reads a file and emits its bytes as a literal
array of fixed-width unsigned integers (optionally grouped into fixed-size
sub-arrays).  We shallowly embed the three pieces of the implementation:

* the literal emitters `Primitive::write_bytes` / `Type::write_bytes`
  (bytes are `List Nat`, the textual output channel is the list of strings
  written to the `fmt::Write` sink, in order);
* the streaming read loop of `include_bytes` (the 4096-byte window, the
  carry-over of unconsumed bytes, the `SizeMismatch` check at end of file;
  `File::read` is modelled as deterministically returning
  `min (remaining bytes) (free window space)` bytes);
* the argument parser `Input::parse` / `Type::parse` (invocation text is
  `List Char`; the `.unwrap()` on the first whitespace token is modelled by a
  distinguished `panic` outcome).

Native byte order (`from_ne_bytes`) is modelled as little-endian, the byte
order of the x86-64 build target.  The assembly of the final
`proc_macro::TokenStream` (and the possibility of `TokenStream::parse`
failing on exotic error messages) is not modelled; an error outcome carries
the message text passed to `compile_error`.
-/

set_option autoImplicit false

namespace IncludeBytes

/-- whitespace test used by the argument parser; models Rust
`char::is_whitespace` (restricted to ASCII whitespace, which is what
`Char.isWhitespace` decides). -/
def isWs (c : Char) : Bool := c.isWhitespace

/-- models Rust `str::trim`: drop whitespace from both ends. -/
def trimChars (l : List Char) : List Char :=
  ((l.dropWhile isWs).reverse.dropWhile isWs).reverse

/-- fuel-driven worker for `tokensOf`. -/
def tokensAux : Nat → List Char → List (List Char)
  | 0, _ => []
  | fuel+1, l =>
    let l' := l.dropWhile isWs
    if l' = [] then []
    else l'.takeWhile (fun c => !(isWs c)) :: tokensAux fuel (l'.dropWhile (fun c => !(isWs c)))

/-- models Rust `str::split_whitespace`: the list of maximal non-whitespace runs. -/
def tokensOf (l : List Char) : List (List Char) := tokensAux (l.length + 1) l

/-- models `str::find('"')`: index of the first double quote, if any. -/
def findQuote : List Char → Option Nat
  | [] => none
  | c :: rest => if c = '"' then some 0 else (findQuote rest).map (· + 1)

/-- fuel-driven worker for `splitSemi`. -/
def splitSemiAux : Nat → List Char → List (List Char)
  | 0, l => [l]
  | fuel+1, l =>
    let piece := l.takeWhile (fun c => !(c == ';'))
    match l.dropWhile (fun c => !(c == ';')) with
    | [] => [piece]
    | _ :: tail => piece :: splitSemiAux fuel tail

/-- models Rust `str::split(';')`: always yields at least one piece. -/
def splitSemi (l : List Char) : List (List Char) := splitSemiAux (l.length + 1) l

/-- models `usize::from_str` as used for the array size (`arr_size.parse()`):
an optional leading `+` followed by one or more decimal digits; the error
strings are those of `core::num::ParseIntError`.  Overflow of `usize` is not
modelled (sizes are unbounded `Nat`s here). -/
def parseUsize (l : List Char) : Except String Nat :=
  if l = [] then .error "cannot parse integer from empty string"
  else
    let digits := match l with
      | '+' :: ds => ds
      | ds => ds
    if digits = [] then .error "invalid digit found in string"
    else if digits.all (fun c => c.isDigit) then
      .ok (digits.foldl (fun acc c => 10 * acc + (c.toNat - 48)) 0)
    else .error "invalid digit found in string"

/-- lowercase hexadecimal digit, as produced by Rust's `{:x}` formatting. -/
def hexDigit (d : Nat) : Char := if d < 10 then Char.ofNat (48 + d) else Char.ofNat (87 + d)

/-- fuel-driven worker for `hexChars` (most significant digit first). -/
def hexCoreAux : Nat → Nat → List Char
  | 0, _ => []
  | fuel+1, n => if n < 16 then [hexDigit n] else hexCoreAux fuel (n / 16) ++ [hexDigit (n % 16)]

/-- digit list of Rust's `{:x}` rendering of `n` (no leading zeros, `"0"` for zero). -/
def hexChars (n : Nat) : List Char := hexCoreAux (n + 1) n

/-- string form of Rust's `{:x}` rendering. -/
def hexStr (n : Nat) : String := String.mk (hexChars n)

/-- the five supported element widths, from the `Primitive` enum of the source. -/
inductive Primitive where
  | u8 | u16 | u32 | u64 | u128
deriving DecidableEq

/-- transcribes `Primitive::size` (`mem::size_of` of the corresponding width). -/
def Primitive.size : Primitive → Nat
  | .u8 => 1
  | .u16 => 2
  | .u32 => 4
  | .u64 => 8
  | .u128 => 16

/-- transcribes the `fmt::Display` impl for `Primitive`. -/
def Primitive.display : Primitive → String
  | .u8 => "u8"
  | .u16 => "u16"
  | .u32 => "u32"
  | .u64 => "u64"
  | .u128 => "u128"

/-- models `uN::from_ne_bytes` on the build target (x86-64, little-endian):
the first byte of the chunk is least significant. -/
def fromNeBytes (chunk : List Nat) : Nat := chunk.foldr (fun b acc => b + 256 * acc) 0

/-- one emitted literal token, from the format string `"0x{:x}uN, "`. -/
def tok (p : Primitive) (v : Nat) : String := "0x" ++ hexStr v ++ p.display ++ ", "

/-- fuel-driven worker for `chunksExact`. -/
def chunksExactAux {α : Type} (k : Nat) : Nat → List α → List (List α)
  | 0, _ => []
  | fuel+1, l => if 0 < k ∧ k ≤ l.length then l.take k :: chunksExactAux k fuel (l.drop k) else []

/-- models `slice::chunks_exact(k)`: the maximal list of consecutive `k`-element
chunks; a remainder shorter than `k` is dropped. -/
def chunksExact {α : Type} (k : Nat) (l : List α) : List (List α) := chunksExactAux k l.length l

/-- transcribes `Primitive::write_bytes`: emits one token per complete chunk of
`size` bytes (decoded in native byte order) and returns the written tokens (in
order) together with the number of input bytes consumed (`written`). -/
def Primitive.writeBytes : Primitive → List Nat → List String × Nat
  | .u8, bytes => (bytes.map (fun b => tok .u8 b), bytes.length)
  | .u16, bytes =>
      ((chunksExact 2 bytes).map (fun c => tok .u16 (fromNeBytes c)),
       (chunksExact 2 bytes).foldl (fun acc c => acc + c.length) 0)
  | .u32, bytes =>
      ((chunksExact 4 bytes).map (fun c => tok .u32 (fromNeBytes c)),
       (chunksExact 4 bytes).foldl (fun acc c => acc + c.length) 0)
  | .u64, bytes =>
      ((chunksExact 8 bytes).map (fun c => tok .u64 (fromNeBytes c)),
       (chunksExact 8 bytes).foldl (fun acc c => acc + c.length) 0)
  | .u128, bytes =>
      ((chunksExact 16 bytes).map (fun c => tok .u128 (fromNeBytes c)),
       (chunksExact 16 bytes).foldl (fun acc c => acc + c.length) 0)

/-- the `Type` enum of the source: a bare primitive or a fixed-size array. -/
inductive Ty where
  | primitive : Primitive → Ty
  | array : Primitive → Nat → Ty
deriving DecidableEq

/-- transcribes the `fmt::Display` impl for `Type` (`"[{}; {}]"` for arrays). -/
def Ty.display : Ty → String
  | .primitive p => p.display
  | .array p n => "[" ++ p.display ++ "; " ++ Nat.repr n ++ "]"

/-- transcribes `Type::write_bytes`: a primitive delegates to
`Primitive::write_bytes`; an array computes `required_size = size_of * count`,
returns `0` when the slice is shorter than one group, and otherwise emits
`"["`, the group's elements, `"],"` per complete group, accumulating the
consumed byte count. -/
def Ty.writeBytes : Ty → List Nat → List String × Nat
  | .primitive p, bytes => p.writeBytes bytes
  | .array p n, bytes =>
    let required := p.size * n
    if bytes.length < required then ([], 0)
    else
      (chunksExact required bytes).foldl
        (fun acc c => (acc.1 ++ ("[" :: (p.writeBytes c).1 ++ ["],"]), acc.2 + (p.writeBytes c).2))
        ([], 0)

/-- number of bytes one complete emission unit needs: the element size for a
primitive request, `element size * count` for an array request. -/
def Ty.groupSize : Ty → Nat
  | .primitive p => p.size
  | .array p n => p.size * n

/-- structured failure of the streaming loop: the `SizeMismatch` diagnostic
carries the `file_len` counter and the requested type. -/
inductive Err where
  | sizeMismatch : Nat → Ty → Err
deriving DecidableEq

/-- transcribes the read loop of `include_bytes`.  `window` is the unconsumed
prefix `buf[..cursor]`, `rest` the not-yet-read tail of the file, `fileLen`
the running `file_len` counter and `acc` the output pieces written so far.
A read returns `min rest.length (4096 - window.length)` bytes; a zero-byte
read with a nonempty window is the `SizeMismatch` failure, with an empty
window it appends the closing bracket and succeeds.  The fuel argument only
drives the recursion; `runLoop` supplies enough fuel for every iteration to
read at least one byte. -/
def loopAux (t : Ty) : Nat → List Nat → List Nat → Nat → List String → Except Err (List String)
  | 0, _window, _rest, fileLen, _acc => .error (.sizeMismatch fileLen t)
  | fuel+1, window, rest, fileLen, acc =>
    let space := 4096 - window.length
    let n := min rest.length space
    if n = 0 then
      if window.length ≠ 0 then .error (.sizeMismatch fileLen t)
      else .ok (acc ++ ["]"])
    else
      let avail := window ++ rest.take n
      loopAux t fuel (avail.drop (t.writeBytes avail).2) (rest.drop n) (fileLen + n)
        (acc ++ (t.writeBytes avail).1)

/-- the streaming emitter of `include_bytes` applied to a whole file: start
with an empty window, the `"["` opening bracket already written, and
`file_len = 0`. -/
def runLoop (t : Ty) (file : List Nat) : Except Err (List String) :=
  loopAux t (file.length + 1) [] file 0 ["["]

/-- outcome of a failing expansion: either the message handed to
`compile_error` (returned as a compile-time diagnostic) or a panic of the
proc-macro itself (an `unwrap()` of `None`). -/
inductive Failure where
  | panic : Failure
  | compileError : String → Failure
deriving DecidableEq

/-- the `Input` struct of the source: parsed file path and requested type. -/
structure ParsedInput where
  file : List Char
  typ : Ty
deriving DecidableEq

/-- transcribes `Type::parse`: the five primitive keywords, or an array
expression `[<primitive>; <size>]`, with the source's diagnostic messages. -/
def typeParse (input : List Char) : Except Failure Ty :=
  if input = [] then .error (.compileError "'as' is missing type")
  else if input = "u8".data then .ok (.primitive .u8)
  else if input = "u16".data then .ok (.primitive .u16)
  else if input = "u32".data then .ok (.primitive .u32)
  else if input = "u64".data then .ok (.primitive .u64)
  else if input = "u128".data then .ok (.primitive .u128)
  else
    match input with
    | '[' :: arg =>
      if arg.getLast? = some ']' then
        let body := arg.dropLast
        match splitSemi body with
        | [] => .error .panic
        | [_only] =>
          .error (.compileError ("'as' array expression '" ++ String.mk input
            ++ "' is missing size"))
        | arrType :: arrSize :: restPieces =>
          if restPieces ≠ [] then
            .error (.compileError ("'as' array expression '" ++ String.mk input
              ++ "' has superfluous ';'"))
          else
            let prim : Except Failure Primitive :=
              if arrType = "u8".data then .ok .u8
              else if arrType = "u16".data then .ok .u16
              else if arrType = "u32".data then .ok .u32
              else if arrType = "u64".data then .ok .u64
              else if arrType = "u128".data then .ok .u128
              else .error (.compileError ("'as' array expression '" ++ String.mk input
                ++ "' has invalid type '" ++ String.mk arrType ++ "'"))
            match prim with
            | .error e => .error e
            | .ok p =>
              match parseUsize arrSize with
              | .ok 0 => .error (.compileError ("'as' array expression '" ++ String.mk input
                  ++ "' has zero size, which makes no sense"))
              | .ok (m+1) => .ok (.array p (m+1))
              | .error e => .error (.compileError ("'as' array expression '" ++ String.mk input
                  ++ "' has invalid size: " ++ e))
      else
        .error (.compileError ("'as' array expression '" ++ String.mk input
          ++ "' is missing closing brackets"))
    | _ => .error (.compileError ("'as' specifies unsupported type '" ++ String.mk input ++ "'"))

/-- continuation of `Input::parse` after the file path has been split off:
trim the remaining text, then either no further token (default `u8`), the
token `as` followed by the type expression (the remaining tokens concatenated
without separators, then trimmed), or an unsupported-syntax diagnostic. -/
def afterPath (file : List Char) (remaining : List Char) : Except Failure ParsedInput :=
  match tokensOf (trimChars remaining) with
  | [] => .ok ⟨file, .primitive .u8⟩
  | tokn :: restToks =>
    if tokn = "as".data then
      match typeParse (trimChars restToks.flatten) with
      | .ok t => .ok ⟨file, t⟩
      | .error e => .error e
    else
      .error (.compileError ("Unsupported syntax after file name '" ++ String.mk tokn ++ "'"))

/-- transcribes `Input::parse`: a leading double quote delimits the path at the
next `'"'` found (`str::find`), with a missing terminator diagnostic;
otherwise the path is the first whitespace token (`split_whitespace().next().unwrap()`,
whose `unwrap` panics when the input has no token at all) and the remaining
text starts after `file.len()` characters. -/
def parseInput (input : List Char) : Except Failure ParsedInput :=
  match input with
  | '"' :: rest =>
    match findQuote rest with
    | some i => afterPath (rest.take i) (rest.drop (i + 1))
    | none => .error (.compileError "Missing '\"' at the end of file path")
  | _ =>
    let tokn := (input.dropWhile isWs).takeWhile (fun c => !(isWs c))
    match tokn with
    | [] => .error .panic
    | _ => afterPath tokn (input.drop tokn.length)

/-- diagnostic text for a failed `File::open` (source line 294). -/
def openErrorMsg (file : List Char) (osError : String) : String :=
  String.mk file ++ ": Cannot open file: " ++ osError

/-- diagnostic text for a failed mid-stream read (source line 328). -/
def readErrorMsg (file : List Char) (osError : String) : String :=
  String.mk file ++ ": Error reading file: " ++ osError

/-- diagnostic text for the size-mismatch failure (source line 307). -/
def sizeMismatchMsg (fileLen : Nat) (t : Ty) : String :=
  "File input with size " ++ Nat.repr fileLen ++ "b cannot be reinterpret as " ++ t.display

/-- the fallible part of the `include_bytes` entry point (everything up to the
logging): trim and parse the invocation text, reject an empty file name, open
the file through `fs` (which maps a path to the byte contents or to the OS
error text of a failed open), and run the streaming loop.  On success it also
returns the parsed file path and the final `file_len` counter, which only the
log line reports. -/
def expandBytes (input : List Char) (fs : List Char → Except String (List Nat)) :
    Except Failure (List String × List Char × Nat) :=
  match parseInput (trimChars input) with
  | .error e => .error e
  | .ok args =>
    if args.file = [] then .error (.compileError "Empty file name")
    else
      match fs args.file with
      | .error osError => .error (.compileError (openErrorMsg args.file osError))
      | .ok bytes =>
        match runLoop args.typ bytes with
        | .error (.sizeMismatch len t) => .error (.compileError (sizeMismatchMsg len t))
        | .ok out => .ok (out, args.file, bytes.length)

/-- transcribes the whole `include_bytes` entry point.  `env` is the value of
the `RUST_INCLUDE_BYTES_LOG` environment variable.  The first component is
the expansion result (the emitted literal pieces, or the diagnostic), the
second the log lines printed to the side channel (the elapsed-time portion of
the log line is not modelled). -/
def includeBytesFull (env : Option String) (input : List Char)
    (fs : List Char → Except String (List Nat)) :
    Except Failure (List String) × List String :=
  let isLog : Bool := match env with
    | some s => s = "1" || s = "true"
    | none => false
  match expandBytes input fs with
  | .error e => (.error e, [])
  | .ok (out, file, len) =>
    (.ok out, if isLog then [String.mk file ++ ": parsed " ++ Nat.repr len ++ "b"] else [])

/-- the expansion result of the macro, with the log channel disabled. -/
def includeBytes (input : List Char) (fs : List Char → Except String (List Nat)) :
    Except Failure (List String) :=
  (includeBytesFull none input fs).1

/-- tokens a single complete group contributes to the output: one value token
for a primitive request, a bracketed run of element tokens for an array request. -/
def groupTokens : Ty → List Nat → List String
  | .primitive p, c => [tok p (fromNeBytes c)]
  | .array p _, c => "[" :: (p.writeBytes c).1 ++ ["],"]

instance {ε α : Type} [DecidableEq ε] [DecidableEq α] : DecidableEq (Except ε α)
  | .error e, .error e' =>
    if h : e = e' then .isTrue (congrArg Except.error h)
    else .isFalse (fun hc => h (Except.error.inj hc))
  | .error _, .ok _ => .isFalse Except.noConfusion
  | .ok _, .error _ => .isFalse Except.noConfusion
  | .ok a, .ok b =>
    if h : a = b then .isTrue (congrArg Except.ok h)
    else .isFalse (fun hc => h (Except.ok.inj hc))

/-! ### Decoding the emitted 8-bit tokens back into bytes -/

/-- numeric value of a lowercase hexadecimal digit character. -/
def hexVal (c : Char) : Nat := if 97 ≤ c.toNat then c.toNat - 87 else c.toNat - 48

/-- value denoted by a lowercase hexadecimal digit string. -/
def decodeHex (l : List Char) : Nat := l.foldl (fun acc c => 16 * acc + hexVal c) 0

/-- reads one emitted `"0x…u8, "` token back: strip the two characters `0x`,
strip the four characters `u8, `, and decode the hexadecimal middle. -/
def decodeU8Tok (s : String) : Nat :=
  decodeHex ((s.data.drop 2).take ((s.data.drop 2).length - 4))

/-- reads an emitted literal (opening bracket, value tokens, closing bracket)
back as the byte sequence it denotes. -/
def decodeU8Literal (out : List String) : List Nat :=
  ((out.drop 1).dropLast).map decodeU8Tok

/-! ### Properties of `chunksExact` -/

theorem chunksExactAux_congr {α : Type} (k : Nat) :
    ∀ fuel₁ fuel₂ (l : List α), l.length ≤ fuel₁ → l.length ≤ fuel₂ →
      chunksExactAux k fuel₁ l = chunksExactAux k fuel₂ l := by
  intro fuel₁
  induction fuel₁ with
  | zero =>
    intro fuel₂ l h₁ _
    have hl : l = [] := List.length_eq_zero.1 (Nat.le_zero.1 h₁)
    subst hl
    cases fuel₂ with
    | zero => rfl
    | succ m =>
      simp only [chunksExactAux, List.length_nil]
      rw [if_neg (by omega)]
  | succ f ih =>
    intro fuel₂ l h₁ h₂
    cases fuel₂ with
    | zero =>
      have hl : l = [] := List.length_eq_zero.1 (Nat.le_zero.1 h₂)
      subst hl
      simp only [chunksExactAux, List.length_nil]
      rw [if_neg (by omega)]
    | succ m =>
      by_cases hc : 0 < k ∧ k ≤ l.length
      · obtain ⟨hk, hkl⟩ := hc
        simp only [chunksExactAux, if_pos (And.intro hk hkl)]
        rw [ih m (l.drop k) (by simp only [List.length_drop]; omega)
          (by simp only [List.length_drop]; omega)]
      · simp only [chunksExactAux, if_neg hc]

theorem chunksExact_eq {α : Type} (k : Nat) (l : List α) :
    chunksExact k l =
      if 0 < k ∧ k ≤ l.length then l.take k :: chunksExact k (l.drop k) else [] := by
  by_cases hc : 0 < k ∧ k ≤ l.length
  · obtain ⟨hk, hkl⟩ := hc
    rw [if_pos (And.intro hk hkl)]
    unfold chunksExact
    obtain ⟨m, hm⟩ : ∃ m, l.length = m + 1 := ⟨l.length - 1, by omega⟩
    rw [hm]
    simp only [chunksExactAux, if_pos (And.intro hk hkl)]
    rw [chunksExactAux_congr k m (l.drop k).length (l.drop k)
      (by simp only [List.length_drop]; omega) le_rfl]
  · rw [if_neg hc]
    unfold chunksExact
    cases hf : l.length with
    | zero => rfl
    | succ m => simp only [chunksExactAux, if_neg hc]

theorem chunksExact_nil_of_lt {α : Type} (k : Nat) (l : List α) (h : l.length < k) :
    chunksExact k l = [] := by
  rw [chunksExact_eq, if_neg (by omega)]

theorem chunksExact_zero {α : Type} (l : List α) : chunksExact 0 l = [] := by
  rw [chunksExact_eq, if_neg (by omega)]

theorem length_chunksExact {α : Type} (k : Nat) (hk : 0 < k) (l : List α) :
    (chunksExact k l).length = l.length / k := by
  suffices h : ∀ fuel (l : List α), l.length ≤ fuel →
      (chunksExact k l).length = l.length / k from h l.length l le_rfl
  intro fuel
  induction fuel with
  | zero =>
    intro l h
    have hl : l = [] := List.length_eq_zero.1 (Nat.le_zero.1 h)
    subst hl
    simp [chunksExact_zero, chunksExact_nil_of_lt k [] (by simpa using hk), Nat.zero_div]
  | succ f ih =>
    intro l h
    by_cases hc : k ≤ l.length
    · rw [chunksExact_eq, if_pos (And.intro hk hc), List.length_cons,
        ih (l.drop k) (by simp only [List.length_drop]; omega), List.length_drop,
        Nat.div_eq l.length k, if_pos (And.intro hk hc)]
    · rw [chunksExact_nil_of_lt k l (by omega), List.length_nil,
        Nat.div_eq_of_lt (by omega)]

theorem chunksExact_getElem? {α : Type} (k : Nat) (hk : 0 < k) :
    ∀ (i : Nat) (l : List α), i < l.length / k →
      (chunksExact k l)[i]? = some ((l.drop (i * k)).take k) := by
  intro i
  induction i with
  | zero =>
    intro l hi
    have hc : k ≤ l.length := by
      by_contra hlt
      rw [Nat.div_eq_of_lt (by omega)] at hi
      omega
    rw [chunksExact_eq, if_pos (And.intro hk hc)]
    simp
  | succ i ih =>
    intro l hi
    have hc : k ≤ l.length := by
      by_contra hlt
      rw [Nat.div_eq_of_lt (by omega)] at hi
      omega
    have hdiv : l.length / k = (l.length - k) / k + 1 := by
      rw [Nat.div_eq l.length k, if_pos (And.intro hk hc)]
    rw [chunksExact_eq, if_pos (And.intro hk hc), List.getElem?_cons_succ,
      ih (l.drop k) (by rw [List.length_drop]; omega), List.drop_drop]
    rw [show k + i * k = (i + 1) * k from by rw [Nat.succ_mul]; exact Nat.add_comm k (i * k)]

theorem chunksExact_length_mem {α : Type} (k : Nat) (hk : 0 < k) (l : List α)
    (c : List α) (hc : c ∈ chunksExact k l) : c.length = k := by
  obtain ⟨i, hi⟩ := List.mem_iff_getElem?.1 hc
  have hilt : i < l.length / k := by
    by_contra hge
    have : (chunksExact k l)[i]? = none := by
      apply List.getElem?_eq_none
      rw [length_chunksExact k hk l]
      omega
    rw [this] at hi
    exact Option.noConfusion hi
  rw [chunksExact_getElem? k hk i l hilt] at hi
  have hmul : (i + 1) * k ≤ l.length := by
    calc (i + 1) * k ≤ l.length / k * k := Nat.mul_le_mul_right k (by omega)
    _ ≤ l.length := Nat.div_mul_le_self _ _
  have := congrArg List.length (Option.some.inj hi)
  rw [List.length_take, List.length_drop] at this
  rw [← this]
  have : i * k + k ≤ l.length := by
    calc i * k + k = (i + 1) * k := (Nat.succ_mul i k).symm
    _ ≤ l.length := hmul
  omega

theorem chunksExact_one {α : Type} (l : List α) :
    chunksExact 1 l = l.map (fun a => [a]) := by
  induction l with
  | nil => rw [chunksExact_eq]; simp
  | cons a l ih =>
    rw [chunksExact_eq, if_pos (by simp)]
    simpa using ih

theorem chunksExact_append {α : Type} (k : Nat) (hk : 0 < k) (a b : List α) :
    chunksExact k (a ++ b) =
      chunksExact k a ++ chunksExact k (a.drop (a.length / k * k) ++ b) := by
  suffices h : ∀ fuel (a : List α), a.length ≤ fuel →
      chunksExact k (a ++ b) =
        chunksExact k a ++ chunksExact k (a.drop (a.length / k * k) ++ b) from
    h a.length a le_rfl
  intro fuel
  induction fuel with
  | zero =>
    intro a h
    have ha : a = [] := List.length_eq_zero.1 (Nat.le_zero.1 h)
    subst ha
    simp [chunksExact_nil_of_lt k [] (by simpa using hk)]
  | succ f ih =>
    intro a h
    by_cases hc : k ≤ a.length
    · have hcab : k ≤ (a ++ b).length := by rw [List.length_append]; omega
      rw [chunksExact_eq k (a ++ b), if_pos (And.intro hk hcab),
        List.take_append_of_le_length hc, List.drop_append_of_le_length hc,
        chunksExact_eq k a, if_pos (And.intro hk hc),
        ih (a.drop k) (by rw [List.length_drop]; omega)]
      rw [List.cons_append]
      congr 2
      rw [List.drop_drop, List.length_drop]
      have harith : k + (a.length - k) / k * k = a.length / k * k := by
        rw [Nat.div_eq a.length k, if_pos (And.intro hk hc), Nat.succ_mul]
        exact Nat.add_comm k _
      rw [harith]
    · rw [chunksExact_nil_of_lt k a (by omega), Nat.div_eq_of_lt (by omega)]
      simp

/-! ### Properties of the literal emitters -/

theorem Primitive.size_pos (p : Primitive) : 0 < p.size := by
  cases p <;> simp [Primitive.size]

theorem fromNeBytes_singleton (b : Nat) : fromNeBytes [b] = b := by
  simp [fromNeBytes]

theorem flatMap_singleton_eq_map {α β : Type} (f : α → β) :
    ∀ L : List α, L.flatMap (fun a => [f a]) = L.map f := by
  intro L
  induction L with
  | nil => rfl
  | cons a L ih => simp only [List.flatMap_cons, List.map_cons, List.singleton_append, ih]

theorem foldl_add_length {α : Type} :
    ∀ (L : List (List α)) (s : Nat),
      L.foldl (fun acc c => acc + c.length) s = s + (L.map List.length).sum := by
  intro L
  induction L with
  | nil => intro s; simp
  | cons c L ih =>
    intro s
    rw [List.foldl_cons, ih, List.map_cons, List.sum_cons]
    omega

theorem chunks_foldl_length (k : Nat) (hk : 0 < k) (bytes : List Nat) :
    (chunksExact k bytes).foldl (fun acc c => acc + c.length) 0 = bytes.length / k * k := by
  rw [foldl_add_length]
  have hmap : (chunksExact k bytes).map List.length = List.replicate (bytes.length / k) k := by
    apply List.eq_replicate_iff.2
    refine ⟨by rw [List.length_map, length_chunksExact k hk], ?_⟩
    intro b hb
    obtain ⟨c, hc, rfl⟩ := List.mem_map.1 hb
    exact chunksExact_length_mem k hk bytes c hc
  rw [hmap, List.sum_replicate, smul_eq_mul]
  omega

theorem primitive_writeBytes_fst (p : Primitive) (bytes : List Nat) :
    (p.writeBytes bytes).1 = (chunksExact p.size bytes).map (fun c => tok p (fromNeBytes c)) := by
  cases p with
  | u8 =>
    show bytes.map (fun b => tok .u8 b) = _
    rw [show Primitive.size .u8 = 1 from rfl, chunksExact_one, List.map_map]
    apply List.map_congr_left
    intro b _
    simp [Function.comp, fromNeBytes_singleton]
  | u16 => rfl
  | u32 => rfl
  | u64 => rfl
  | u128 => rfl

theorem primitive_writeBytes_snd (p : Primitive) (bytes : List Nat) :
    (p.writeBytes bytes).2 = bytes.length / p.size * p.size := by
  cases p with
  | u8 =>
    show bytes.length = bytes.length / 1 * 1
    simp
  | u16 => exact chunks_foldl_length 2 (by omega) bytes
  | u32 => exact chunks_foldl_length 4 (by omega) bytes
  | u64 => exact chunks_foldl_length 8 (by omega) bytes
  | u128 => exact chunks_foldl_length 16 (by omega) bytes

theorem foldl_emit (p : Primitive) :
    ∀ (L : List (List Nat)) (acc : List String) (s : Nat),
      L.foldl (fun ac c =>
          (ac.1 ++ ("[" :: (p.writeBytes c).1 ++ ["],"]), ac.2 + (p.writeBytes c).2)) (acc, s)
        = (acc ++ L.flatMap (fun c => "[" :: (p.writeBytes c).1 ++ ["],"]),
           s + (L.map (fun c => (p.writeBytes c).2)).sum) := by
  intro L
  induction L with
  | nil => intro acc s; simp
  | cons c L ih =>
    intro acc s
    rw [List.foldl_cons, ih, List.flatMap_cons, List.map_cons, List.sum_cons]
    simp [List.append_assoc, Nat.add_assoc]

theorem ty_writeBytes_fst (t : Ty) (bytes : List Nat) :
    (t.writeBytes bytes).1 = (chunksExact t.groupSize bytes).flatMap (groupTokens t) := by
  cases t with
  | primitive p =>
    show (p.writeBytes bytes).1 = _
    rw [primitive_writeBytes_fst]
    exact (flatMap_singleton_eq_map _ _).symm
  | array p n =>
    show (Ty.writeBytes (.array p n) bytes).1 = _
    by_cases hl : bytes.length < p.size * n
    · simp only [Ty.writeBytes, if_pos hl]
      rw [show Ty.groupSize (.array p n) = p.size * n from rfl,
        chunksExact_nil_of_lt _ _ hl, List.flatMap_nil]
    · simp only [Ty.writeBytes, if_neg hl]
      rw [foldl_emit]
      rfl

theorem ty_writeBytes_snd (t : Ty) (hg : 0 < t.groupSize) (bytes : List Nat) :
    (t.writeBytes bytes).2 = bytes.length / t.groupSize * t.groupSize := by
  cases t with
  | primitive p => exact primitive_writeBytes_snd p bytes
  | array p n =>
    show (Ty.writeBytes (.array p n) bytes).2 = bytes.length / (p.size * n) * (p.size * n)
    have hgn : 0 < p.size * n := hg
    by_cases hl : bytes.length < p.size * n
    · simp only [Ty.writeBytes, if_pos hl]
      rw [Nat.div_eq_of_lt hl, Nat.zero_mul]
    · simp only [Ty.writeBytes, if_neg hl]
      rw [foldl_emit]
      show 0 + ((chunksExact (p.size * n) bytes).map (fun c => (p.writeBytes c).2)).sum = _
      have hmap : (chunksExact (p.size * n) bytes).map (fun c => (p.writeBytes c).2)
          = List.replicate (bytes.length / (p.size * n)) (p.size * n) := by
        apply List.eq_replicate_iff.2
        refine ⟨by rw [List.length_map, length_chunksExact _ hgn], ?_⟩
        intro b hb
        obtain ⟨c, hc, rfl⟩ := List.mem_map.1 hb
        rw [primitive_writeBytes_snd, chunksExact_length_mem _ hgn bytes c hc,
          Nat.mul_div_cancel_left n p.size_pos, Nat.mul_comm]
      rw [hmap, List.sum_replicate, smul_eq_mul]
      omega

theorem writeBytes_fst_append (t : Ty) (hg : 0 < t.groupSize) (a b : List Nat) :
    (t.writeBytes (a ++ b)).1 =
      (t.writeBytes a).1
        ++ (t.writeBytes (a.drop (a.length / t.groupSize * t.groupSize) ++ b)).1 := by
  rw [ty_writeBytes_fst, ty_writeBytes_fst, ty_writeBytes_fst,
    chunksExact_append t.groupSize hg a b, List.flatMap_append]

theorem writeBytes_fst_nil (t : Ty) (hg : 0 < t.groupSize) : (t.writeBytes []).1 = [] := by
  rw [ty_writeBytes_fst, chunksExact_nil_of_lt _ _ (by simpa using hg), List.flatMap_nil]

/-! ### The streaming loop -/

theorem loopAux_succ (t : Ty) (f : Nat) (window rest : List Nat) (fileLen : Nat)
    (acc : List String) :
    loopAux t (f+1) window rest fileLen acc =
      if min rest.length (4096 - window.length) = 0 then
        if window.length ≠ 0 then .error (.sizeMismatch fileLen t) else .ok (acc ++ ["]"])
      else
        loopAux t f
          ((window ++ rest.take (min rest.length (4096 - window.length))).drop
            ((t.writeBytes (window ++ rest.take (min rest.length (4096 - window.length)))).2))
          (rest.drop (min rest.length (4096 - window.length)))
          (fileLen + min rest.length (4096 - window.length))
          (acc ++ (t.writeBytes (window ++ rest.take (min rest.length (4096 - window.length)))).1)
    := rfl

theorem loopAux_spec (t : Ty) (hg : 0 < t.groupSize) (hle : t.groupSize ≤ 4096) :
    ∀ (fuel : Nat) (window rest : List Nat) (fileLen : Nat) (acc : List String),
      rest.length < fuel → window.length < t.groupSize →
      loopAux t fuel window rest fileLen acc =
        if (window.length + rest.length) % t.groupSize = 0 then
          .ok (acc ++ (t.writeBytes (window ++ rest)).1 ++ ["]"])
        else .error (.sizeMismatch (fileLen + rest.length) t) := by
  intro fuel
  induction fuel with
  | zero => intro window rest fileLen acc hf _hw; omega
  | succ f ih =>
    intro window rest fileLen acc hf hw
    rw [loopAux_succ]
    by_cases hr : rest.length = 0
    · have hrest : rest = [] := List.length_eq_zero.1 hr
      subst hrest
      rw [show min ([] : List Nat).length (4096 - window.length) = 0 from by simp]
      rw [if_pos rfl]
      by_cases hw0 : window.length = 0
      · have hwin : window = [] := List.length_eq_zero.1 hw0
        subst hwin
        rw [if_neg (by simp), if_pos (by simp)]
        rw [List.nil_append, writeBytes_fst_nil t hg]
        simp
      · rw [if_pos hw0,
          if_neg (by rw [List.length_nil, Nat.add_zero, Nat.mod_eq_of_lt hw]; exact hw0)]
        simp
    · have hn : 0 < min rest.length (4096 - window.length) := by omega
      rw [if_neg (by omega)]
      set n := min rest.length (4096 - window.length) with hndef
      set avail := window ++ rest.take n with havail
      have havlen : avail.length = window.length + n := by
        rw [havail, List.length_append, List.length_take]
        omega
      have hwr : (t.writeBytes avail).2 = avail.length / t.groupSize * t.groupSize :=
        ty_writeBytes_snd t hg avail
      have hmod : avail.length % t.groupSize
          = avail.length - avail.length / t.groupSize * t.groupSize := by
        have h1 := Nat.div_add_mod avail.length t.groupSize
        have h2 : t.groupSize * (avail.length / t.groupSize)
            = avail.length / t.groupSize * t.groupSize := Nat.mul_comm _ _
        omega
      have hwin' : (avail.drop ((t.writeBytes avail).2)).length
          = avail.length % t.groupSize := by
        rw [List.length_drop, hwr]
        omega
      have hwlt : (avail.drop ((t.writeBytes avail).2)).length < t.groupSize := by
        rw [hwin']
        exact Nat.mod_lt _ hg
      have hrest' : (rest.drop n).length < f := by
        rw [List.length_drop]
        omega
      rw [ih _ _ _ _ hrest' hwlt]
      have hcond : ((avail.drop ((t.writeBytes avail).2)).length + (rest.drop n).length)
            % t.groupSize
          = (window.length + rest.length) % t.groupSize := by
        rw [hwin', List.length_drop, havlen, Nat.mod_add_mod]
        congr 1
        omega
      rw [hcond]
      by_cases hdiv : (window.length + rest.length) % t.groupSize = 0
      · rw [if_pos hdiv, if_pos hdiv]
        rw [show window ++ rest = avail ++ rest.drop n from by
          rw [havail, List.append_assoc, List.take_append_drop]]
        rw [writeBytes_fst_append t hg avail (rest.drop n), ← hwr]
        simp [List.append_assoc]
      · rw [if_neg hdiv, if_neg hdiv]
        rw [List.length_drop, show fileLen + n + (rest.length - n) = fileLen + rest.length
          from by omega]

theorem runLoop_spec (t : Ty) (hg : 0 < t.groupSize) (hle : t.groupSize ≤ 4096)
    (file : List Nat) :
    runLoop t file =
      if file.length % t.groupSize = 0 then
        .ok (["["] ++ (t.writeBytes file).1 ++ ["]"])
      else .error (.sizeMismatch file.length t) := by
  unfold runLoop
  rw [loopAux_spec t hg hle (file.length + 1) [] file 0 ["["] (by omega) (by simpa using hg)]
  simp

theorem runLoop_nil (t : Ty) : runLoop t [] = .ok ["[", "]"] := rfl

theorem runLoop_big_group (t : Ty) (file : List Nat) (hg : 4096 < t.groupSize)
    (hf : 4096 < file.length) :
    runLoop t file = .error (.sizeMismatch 4096 t) := by
  have hg0 : 0 < t.groupSize := by omega
  obtain ⟨m, hm⟩ : ∃ m, file.length = m + 4097 := ⟨file.length - 4097, by omega⟩
  unfold runLoop
  rw [hm, show m + 4097 + 1 = (m + 4097) + 1 from rfl, loopAux_succ]
  simp only [List.length_nil, Nat.sub_zero, List.nil_append]
  have hn : min file.length 4096 = 4096 := by omega
  rw [hn, if_neg (by omega)]
  have htlen : (file.take 4096).length = 4096 := by
    rw [List.length_take]
    omega
  have hw2 : (t.writeBytes (file.take 4096)).2 = 0 := by
    rw [ty_writeBytes_snd t hg0, htlen, Nat.div_eq_of_lt hg, Nat.zero_mul]
  have hw1 : (t.writeBytes (file.take 4096)).1 = [] := by
    rw [ty_writeBytes_fst, chunksExact_nil_of_lt _ _ (by rw [htlen]; exact hg),
      List.flatMap_nil]
  rw [hw2, hw1, List.drop_zero, List.append_nil]
  rw [show m + 4097 = (m + 4096) + 1 from rfl, loopAux_succ]
  rw [htlen, show (4096 : Nat) - 4096 = 0 from rfl, Nat.min_zero, if_pos rfl,
    if_pos (by omega)]

theorem runLoop_mid_group (t : Ty) (file : List Nat) (hg : 4096 < t.groupSize)
    (h1 : 0 < file.length) (h2 : file.length ≤ 4096) :
    runLoop t file = .error (.sizeMismatch file.length t) := by
  have hg0 : 0 < t.groupSize := by omega
  obtain ⟨q, hq⟩ : ∃ q, file.length = q + 1 := ⟨file.length - 1, by omega⟩
  unfold runLoop
  rw [hq, loopAux_succ]
  simp only [List.length_nil, Nat.sub_zero, List.nil_append]
  have hn : min file.length 4096 = file.length := by omega
  rw [hn, if_neg (by omega), List.take_length, List.drop_length]
  have hw2 : (t.writeBytes file).2 = 0 := by
    rw [ty_writeBytes_snd t hg0, Nat.div_eq_of_lt (by omega), Nat.zero_mul]
  have hw1 : (t.writeBytes file).1 = [] := by
    rw [ty_writeBytes_fst, chunksExact_nil_of_lt _ _ (by omega), List.flatMap_nil]
  rw [hw2, hw1, List.drop_zero, List.append_nil]
  rw [loopAux_succ]
  rw [List.length_nil, show min 0 (4096 - file.length) = 0 from by omega, if_pos rfl,
    if_pos (by omega), Nat.zero_add, hq]

theorem runLoop_ok_inv (t : Ty) (hg : 0 < t.groupSize) (file : List Nat) (out : List String)
    (h : runLoop t file = .ok out) :
    out = ["["] ++ (t.writeBytes file).1 ++ ["]"] ∧ file.length % t.groupSize = 0 := by
  by_cases hle : t.groupSize ≤ 4096
  · rw [runLoop_spec t hg hle file] at h
    by_cases hdiv : file.length % t.groupSize = 0
    · rw [if_pos hdiv] at h
      exact ⟨(Except.ok.inj h).symm, hdiv⟩
    · rw [if_neg hdiv] at h
      exact Except.noConfusion h
  · by_cases hnil : file.length = 0
    · have hfile : file = [] := List.length_eq_zero.1 hnil
      subst hfile
      rw [runLoop_nil] at h
      refine ⟨?_, by simp⟩
      rw [writeBytes_fst_nil t hg]
      simpa using (Except.ok.inj h).symm
    · by_cases hbig : 4096 < file.length
      · rw [runLoop_big_group t file (by omega) hbig] at h
        exact Except.noConfusion h
      · rw [runLoop_mid_group t file (by omega) (by omega) (by omega)] at h
        exact Except.noConfusion h

theorem hexVal_hexDigit : ∀ d : Nat, d < 16 → hexVal (hexDigit d) = d := by decide

theorem decodeHex_append_digit (l : List Char) (c : Char) :
    decodeHex (l ++ [c]) = 16 * decodeHex l + hexVal c := by
  unfold decodeHex
  rw [List.foldl_append]
  rfl

theorem decodeHex_hexCoreAux : ∀ fuel n, n < fuel → decodeHex (hexCoreAux fuel n) = n := by
  intro fuel
  induction fuel with
  | zero => intro n h; omega
  | succ f ih =>
    intro n h
    by_cases h16 : n < 16
    · simp only [hexCoreAux, if_pos h16]
      show 16 * 0 + hexVal (hexDigit n) = n
      rw [hexVal_hexDigit n h16]
      omega
    · simp only [hexCoreAux, if_neg h16]
      rw [decodeHex_append_digit, ih (n / 16) (by omega),
        hexVal_hexDigit (n % 16) (by omega)]
      omega

theorem decodeHex_hexChars (n : Nat) : decodeHex (hexChars n) = n :=
  decodeHex_hexCoreAux (n + 1) n (by omega)

theorem tok_data (p : Primitive) (v : Nat) :
    (tok p v).data = '0' :: 'x' :: (hexChars v ++ (p.display.data ++ [',', ' '])) := by
  unfold tok
  rw [String.data_append, String.data_append, String.data_append]
  show (("0x".data ++ hexChars v) ++ p.display.data) ++ ", ".data = _
  simp [List.append_assoc]

theorem decodeU8Tok_tok (v : Nat) : decodeU8Tok (tok .u8 v) = v := by
  unfold decodeU8Tok
  rw [tok_data]
  rw [show Primitive.display .u8 = "u8" from rfl]
  rw [show ("u8".data ++ ([',', ' '] : List Char)) = ['u', '8', ',', ' '] from rfl]
  rw [List.drop_succ_cons, List.drop_succ_cons, List.drop_zero]
  rw [List.length_append, show (['u', '8', ',', ' '] : List Char).length = 4 from rfl,
    Nat.add_sub_cancel, List.take_left]
  exact decodeHex_hexChars v

theorem tok_ne_bracketL (p : Primitive) (v : Nat) : tok p v ≠ "[" := by
  intro h
  have hdata := congrArg String.data h
  rw [tok_data] at hdata
  exact absurd hdata (by simp)

/-! ### Locating the closing quote of a quoted file path -/

theorem findQuote_no_quote : ∀ l : List Char, '"' ∉ l → findQuote l = none := by
  intro l
  induction l with
  | nil => intro _; rfl
  | cons c rest ih =>
    intro h
    rw [List.mem_cons, not_or] at h
    unfold findQuote
    rw [if_neg (fun hceq => h.1 hceq.symm), ih h.2]
    rfl

theorem findQuote_append_quote : ∀ (path rest : List Char), '"' ∉ path →
    findQuote (path ++ '"' :: rest) = some path.length := by
  intro path
  induction path with
  | nil =>
    intro rest _
    unfold findQuote
    simp
  | cons c p ih =>
    intro rest h
    rw [List.mem_cons, not_or] at h
    show findQuote (c :: (p ++ '"' :: rest)) = some (p.length + 1)
    unfold findQuote
    rw [if_neg (fun hceq => h.1 hceq.symm), ih rest h.2]
    rfl

theorem parseInput_quoted (l : List Char) :
    parseInput ('"' :: l) =
      match findQuote l with
      | some i => afterPath (l.take i) (l.drop (i + 1))
      | none => .error (.compileError "Missing '\"' at the end of file path") := rfl

theorem afterPath_nil (file : List Char) :
    afterPath file [] = .ok ⟨file, .primitive .u8⟩ := rfl

theorem parseInput_quoted_complete (path rest : List Char) (h : '"' ∉ path) :
    parseInput ('"' :: (path ++ '"' :: rest)) = afterPath path rest := by
  rw [parseInput_quoted, findQuote_append_quote path rest h]
  show afterPath ((path ++ '"' :: rest).take path.length)
      ((path ++ '"' :: rest).drop (path.length + 1)) = _
  rw [List.take_append_of_le_length le_rfl, List.take_length]
  rw [show path ++ '"' :: rest = (path ++ ['"']) ++ rest from by simp,
    show path.length + 1 = (path ++ ['"']).length from by simp, List.drop_left]

theorem parseInput_unterminated (path : List Char) (h : '"' ∉ path) :
    parseInput ('"' :: path)
      = .error (.compileError "Missing '\"' at the end of file path") := by
  rw [parseInput_quoted, findQuote_no_quote path h]

/-! ### Diagnostic message contents -/

theorem infix_mid {α : Type} (x a y : List α) : a <:+: x ++ (a ++ y) :=
  ⟨x, y, by simp [List.append_assoc]⟩

theorem openErrorMsg_data (path : List Char) (os : String) :
    (openErrorMsg path os).data = path ++ (": Cannot open file: ".data ++ os.data) := by
  unfold openErrorMsg
  rw [String.data_append, String.data_append]
  show (path ++ ": Cannot open file: ".data) ++ os.data = _
  simp [List.append_assoc]

theorem readErrorMsg_data (path : List Char) (os : String) :
    (readErrorMsg path os).data = path ++ (": Error reading file: ".data ++ os.data) := by
  unfold readErrorMsg
  rw [String.data_append, String.data_append]
  show (path ++ ": Error reading file: ".data) ++ os.data = _
  simp [List.append_assoc]

theorem sizeMismatchMsg_data (len : Nat) (t : Ty) :
    (sizeMismatchMsg len t).data
      = "File input with size ".data
        ++ ((Nat.repr len).data
          ++ ("b cannot be reinterpret as ".data ++ t.display.data)) := by
  unfold sizeMismatchMsg
  rw [String.data_append, String.data_append, String.data_append]
  simp [List.append_assoc]

/-! ### The logging toggle only feeds the side channel -/

theorem includeBytesFull_fst (env : Option String) (input : List Char)
    (fs : List Char → Except String (List Nat)) :
    (includeBytesFull env input fs).1 = (includeBytesFull none input fs).1 := by
  unfold includeBytesFull
  cases hp : expandBytes input fs with
  | error e => rfl
  | ok triple =>
    obtain ⟨out, file, len⟩ := triple
    rfl

/-! ### Count of emitted sub-array brackets -/

theorem count_bracket_group (p : Primitive) (c : List Nat) :
    List.count "[" ("[" :: ((p.writeBytes c).1 ++ ["],"])) = 1 := by
  rw [List.count_cons]
  have h2 : List.count "[" ((p.writeBytes c).1) = 0 := by
    rw [primitive_writeBytes_fst, List.count_eq_zero]
    intro hmem
    obtain ⟨x, _, hx⟩ := List.mem_map.1 hmem
    exact tok_ne_bracketL p (fromNeBytes x) hx
  rw [List.count_append, h2]
  simp

/-! ### Claim theorems -/

/-- C1 (amended): for every request and every file whose length is not evenly
divisible by the required element/group size, the streaming emitter fails with
a `SizeMismatch` error carrying the target type and never emits a truncated or
padded literal; the carried length equals the file length whenever the
element/group size is at most the 4096-byte read window (as is the case for
every primitive request). -/
theorem C1_size_mismatch (t : Ty) (file : List Nat) (hg : 0 < t.groupSize)
    (hdiv : file.length % t.groupSize ≠ 0) :
    (∃ m, runLoop t file = .error (.sizeMismatch m t))
    ∧ (t.groupSize ≤ 4096 → runLoop t file = .error (.sizeMismatch file.length t)) := by
  constructor
  · by_cases hle : t.groupSize ≤ 4096
    · exact ⟨file.length, by rw [runLoop_spec t hg hle file, if_neg hdiv]⟩
    · have h0 : 0 < file.length := by
        rcases Nat.eq_zero_or_pos file.length with h | h
        · rw [h] at hdiv
          simp at hdiv
        · exact h
      by_cases hbig : 4096 < file.length
      · exact ⟨4096, runLoop_big_group t file (by omega) hbig⟩
      · exact ⟨file.length, runLoop_mid_group t file (by omega) h0 (by omega)⟩
  · intro hle
    rw [runLoop_spec t hg hle file, if_neg hdiv]

/-- C1 witness: a one-byte file reinterpreted as `u16` fails with
`SizeMismatch` carrying the file length 1 and the type `u16`. -/
theorem C1_witness :
    0 < (Ty.primitive Primitive.u16).groupSize
    ∧ ([1] : List Nat).length % (Ty.primitive Primitive.u16).groupSize ≠ 0
    ∧ ((∃ m, runLoop (.primitive .u16) [1] = .error (.sizeMismatch m (.primitive .u16)))
      ∧ ((Ty.primitive Primitive.u16).groupSize ≤ 4096 →
          runLoop (.primitive .u16) [1] = .error (.sizeMismatch 1 (.primitive .u16)))) :=
  ⟨by decide, by decide, C1_size_mismatch (.primitive .u16) [1] (by decide) (by decide)⟩

/-- C1 counterexample: for the array request `[u8; 4098]` and a 4097-byte file
(length not divisible by the 4098-byte group), the loop fails with a
`SizeMismatch` carrying 4096 — the bytes read before the window filled up —
rather than the file length 4097, refuting the claim as stated. -/
theorem C1_counterexample :
    (List.replicate 4097 (0 : Nat)).length % (Ty.array .u8 4098).groupSize ≠ 0
    ∧ runLoop (.array .u8 4098) (List.replicate 4097 0)
        = .error (.sizeMismatch 4096 (.array .u8 4098))
    ∧ runLoop (.array .u8 4098) (List.replicate 4097 0)
        ≠ .error (.sizeMismatch (List.replicate 4097 (0 : Nat)).length (.array .u8 4098)) := by
  have hlen : (List.replicate 4097 (0 : Nat)).length = 4097 := List.length_replicate 4097 0
  have hrun := runLoop_big_group (.array .u8 4098) (List.replicate 4097 0) (by decide)
    (by rw [hlen]; omega)
  refine ⟨?_, hrun, ?_⟩
  · rw [hlen]
    decide
  · rw [hrun, hlen]
    decide

/-- C2 (amended): for every request whose element/group size is at most the
4096-byte read window and every file whose length is a multiple of that size
(including the zero-length file), the streaming emitter reaches end of file
with zero unconsumed remainder and succeeds, returning the opening bracket,
the emitted tokens, and the closing bracket.  The window capacity does NOT
exceed the largest supported group size, so the restriction is necessary for
array requests. -/
theorem C2_success (t : Ty) (file : List Nat) (hg : 0 < t.groupSize)
    (hle : t.groupSize ≤ 4096) (hdiv : file.length % t.groupSize = 0) :
    runLoop t file = .ok (["["] ++ (t.writeBytes file).1 ++ ["]"]) := by
  rw [runLoop_spec t hg hle file, if_pos hdiv]

/-- C2 witness: a two-byte file reinterpreted as `u16` succeeds and emits the
single token `0x201u16`. -/
theorem C2_witness :
    0 < (Ty.primitive Primitive.u16).groupSize
    ∧ (Ty.primitive Primitive.u16).groupSize ≤ 4096
    ∧ ([1, 2] : List Nat).length % (Ty.primitive Primitive.u16).groupSize = 0
    ∧ runLoop (.primitive .u16) [1, 2] = .ok ["[", "0x201u16, ", "]"] :=
  ⟨by decide, by decide, by decide,
    (C2_success (.primitive .u16) [1, 2] (by decide) (by decide) (by decide)).trans (by decide)⟩

/-- C2 counterexample: for the array request `[u8; 4097]` and a 4097-byte file —
whose length IS a multiple of the group size — the emitter does not finish
successfully: the 4097-byte group never fits in the 4096-byte window, the
wait-for-more-data path fills the window, and the zero-byte read that follows
is treated as a `SizeMismatch`.  This refutes the claim that every array
request with a divisible file succeeds. -/
theorem C2_counterexample :
    (List.replicate 4097 (0 : Nat)).length % (Ty.array .u8 4097).groupSize = 0
    ∧ runLoop (.array .u8 4097) (List.replicate 4097 0)
        = .error (.sizeMismatch 4096 (.array .u8 4097)) := by
  constructor
  · rw [List.length_replicate]
    decide
  · exact runLoop_big_group _ _ (by decide) (by rw [List.length_replicate]; omega)

/-- C3: for every primitive width other than `u8` and every byte slice, the
emitter produces `⌊length / (W/8)⌋` tokens, the `i`-th token renders the
native-byte-order reinterpretation of the `i`-th `W/8`-byte source range, and
the consumed-byte count is the element count times `W/8`, leaving any shorter
remainder unconsumed. -/
theorem C3_width_consistency (p : Primitive) (bytes : List Nat) (_hp : p ≠ .u8) :
    ((p.writeBytes bytes).1).length = bytes.length / p.size
    ∧ (∀ i, i < bytes.length / p.size →
        ((p.writeBytes bytes).1)[i]?
          = some (tok p (fromNeBytes ((bytes.drop (i * p.size)).take p.size))))
    ∧ (p.writeBytes bytes).2 = bytes.length / p.size * p.size := by
  refine ⟨?_, ?_, primitive_writeBytes_snd p bytes⟩
  · rw [primitive_writeBytes_fst, List.length_map, length_chunksExact p.size p.size_pos]
  · intro i hi
    rw [primitive_writeBytes_fst, List.getElem?_map,
      chunksExact_getElem? p.size p.size_pos i bytes hi]
    rfl

/-- C3 witness: reinterpreting the three bytes `[1, 2, 3]` as `u16` emits one
element decoding to `0x201` and consumes two bytes, leaving the odd byte. -/
theorem C3_witness :
    Primitive.u16 ≠ Primitive.u8
    ∧ (((Primitive.u16.writeBytes [1, 2, 3]).1).length = 1
      ∧ (∀ i, i < 1 →
          ((Primitive.u16.writeBytes [1, 2, 3]).1)[i]?
            = some (tok .u16 (fromNeBytes ((([1, 2, 3] : List Nat).drop (i * 2)).take 2))))
      ∧ (Primitive.u16.writeBytes [1, 2, 3]).2 = 2) :=
  ⟨by decide, C3_width_consistency .u16 [1, 2, 3] (by decide)⟩

/-- C4: for every array request `[uW; N]` with positive count, a slice shorter
than one `N * W/8`-byte group consumes zero bytes; otherwise one bracketed
sub-array is emitted per complete group, each with exactly `N` element tokens,
the consumed count is as many whole groups as fit, and on a successfully
converted file the number of emitted sub-arrays (the `"["` tokens beyond the
opening bracket) equals `file_length / (N * W/8)`. -/
theorem C4_array_shape (p : Primitive) (n : Nat) (hn : 0 < n) (bytes file : List Nat)
    (out : List String) :
    (bytes.length < p.size * n → ((Ty.array p n).writeBytes bytes).2 = 0)
    ∧ ((Ty.array p n).writeBytes bytes).1
        = (chunksExact (p.size * n) bytes).flatMap
            (fun c => "[" :: ((p.writeBytes c).1 ++ ["],"]))
    ∧ (chunksExact (p.size * n) bytes).length = bytes.length / (p.size * n)
    ∧ (∀ c ∈ chunksExact (p.size * n) bytes, ((p.writeBytes c).1).length = n)
    ∧ ((Ty.array p n).writeBytes bytes).2 = bytes.length / (p.size * n) * (p.size * n)
    ∧ (runLoop (.array p n) file = .ok out →
        out.count "[" = 1 + file.length / (p.size * n)) := by
  have hgn : 0 < p.size * n := Nat.mul_pos p.size_pos hn
  refine ⟨?_, ?_, length_chunksExact _ hgn bytes, ?_, ty_writeBytes_snd (.array p n) hgn bytes, ?_⟩
  · intro h
    simp only [Ty.writeBytes]
    rw [if_pos h]
  · exact ty_writeBytes_fst (.array p n) bytes
  · intro c hc
    rw [primitive_writeBytes_fst, List.length_map, length_chunksExact p.size p.size_pos,
      chunksExact_length_mem _ hgn bytes c hc, Nat.mul_div_cancel_left n p.size_pos]
  · intro hok
    obtain ⟨hout, _⟩ := runLoop_ok_inv (.array p n) hgn file out hok
    rw [hout, ty_writeBytes_fst]
    rw [List.count_append, List.count_append, List.count_flatMap]
    have hmap : ((chunksExact ((Ty.array p n).groupSize) file).map
          (List.count "[" ∘ groupTokens (.array p n)))
        = List.replicate (file.length / (p.size * n)) 1 := by
      apply List.eq_replicate_iff.2
      refine ⟨by
        rw [List.length_map, show (Ty.array p n).groupSize = p.size * n from rfl,
          length_chunksExact _ hgn], ?_⟩
      intro b hb
      obtain ⟨c, _, rfl⟩ := List.mem_map.1 hb
      exact count_bracket_group p c
    rw [hmap, List.sum_replicate, smul_eq_mul]
    rw [show List.count "[" (["["] : List String) = 1 from rfl,
      show List.count "[" (["]"] : List String) = 0 from rfl]
    omega

/-- C4 witness: the request `[u8; 2]` on the five-byte slice `[1,2,3,4,5]`
emits two complete sub-arrays and consumes four bytes, and the converted
four-byte file `[1,2,3,4]` yields exactly two sub-arrays. -/
theorem C4_witness :
    0 < 2
    ∧ ((([1, 2, 3, 4, 5] : List Nat).length < Primitive.u8.size * 2 →
          ((Ty.array .u8 2).writeBytes [1, 2, 3, 4, 5]).2 = 0)
      ∧ ((Ty.array .u8 2).writeBytes [1, 2, 3, 4, 5]).1
          = (chunksExact (Primitive.u8.size * 2) [1, 2, 3, 4, 5]).flatMap
              (fun c => "[" :: ((Primitive.u8.writeBytes c).1 ++ ["],"]))
      ∧ (chunksExact (Primitive.u8.size * 2) [1, 2, 3, 4, 5]).length
          = ([1, 2, 3, 4, 5] : List Nat).length / (Primitive.u8.size * 2)
      ∧ (∀ c ∈ chunksExact (Primitive.u8.size * 2) [1, 2, 3, 4, 5],
          ((Primitive.u8.writeBytes c).1).length = 2)
      ∧ ((Ty.array .u8 2).writeBytes [1, 2, 3, 4, 5]).2
          = ([1, 2, 3, 4, 5] : List Nat).length / (Primitive.u8.size * 2)
              * (Primitive.u8.size * 2)
      ∧ (runLoop (.array .u8 2) [1, 2, 3, 4]
            = .ok ["[", "[", "0x1u8, ", "0x2u8, ", "],", "[", "0x3u8, ", "0x4u8, ", "],", "]"] →
          (["[", "[", "0x1u8, ", "0x2u8, ", "],", "[", "0x3u8, ", "0x4u8, ", "],",
            "]"] : List String).count "["
            = 1 + ([1, 2, 3, 4] : List Nat).length / (Primitive.u8.size * 2))) :=
  ⟨by decide,
    C4_array_shape .u8 2 (by decide) [1, 2, 3, 4, 5] [1, 2, 3, 4]
      ["[", "[", "0x1u8, ", "0x2u8, ", "],", "[", "0x3u8, ", "0x4u8, ", "],", "]"]⟩

/-- C5: round-trip identity at the 8-bit width: converting any file with the
default `u8` element type always succeeds, and reading the emitted literal
back (strip the brackets, decode each `0x…u8` token) yields exactly the
original byte sequence — no byte value is transformed. -/
theorem C5_roundtrip_u8 (file : List Nat) :
    Except.map decodeU8Literal (runLoop (.primitive .u8) file) = .ok file := by
  rw [runLoop_spec (.primitive .u8) (by decide) (by decide) file]
  rw [show (Ty.primitive Primitive.u8).groupSize = 1 from rfl, if_pos (Nat.mod_one _)]
  show Except.ok (decodeU8Literal (["["] ++ ((Ty.primitive .u8).writeBytes file).1 ++ ["]"]))
      = Except.ok file
  unfold decodeU8Literal
  rw [show (["["] ++ ((Ty.primitive Primitive.u8).writeBytes file).1 ++ ["]"])
      = "[" :: (((Ty.primitive Primitive.u8).writeBytes file).1 ++ ["]"]) from by simp]
  rw [List.drop_succ_cons, List.drop_zero, List.dropLast_concat]
  show Except.ok ((file.map (fun b => tok .u8 b)).map decodeU8Tok) = Except.ok file
  rw [List.map_map]
  refine congrArg Except.ok ?_
  exact (List.map_congr_left fun a _ => decodeU8Tok_tok a).trans (List.map_id file)

/-- C6: the macro panics on an empty invocation: `Input::parse` takes the
first whitespace token with `split_whitespace().next().unwrap()`, and on an
empty argument list the iterator is empty, so the `unwrap` panics instead of
producing a compile-time diagnostic.  This refutes the never-panics claim. -/
theorem C6_panics_on_empty_invocation (fs : List Char → Except String (List Nat)) :
    includeBytes [] fs = .error .panic := rfl

/-- C7 counterexample: a one-byte file requested as `u16` through the full
pipeline fails with the `SizeMismatch` diagnostic, whose message contains the
file length and the type but NOT the offending file path `f.bin`, refuting
the claim that every post-parse diagnostic names the path. -/
theorem C7_counterexample :
    includeBytes "f.bin as u16".data (fun _ => .ok [1])
      = .error (.compileError "File input with size 1b cannot be reinterpret as u16")
    ∧ "File input with size 1b cannot be reinterpret as u16"
        = sizeMismatchMsg 1 (.primitive .u16)
    ∧ ¬ ("f.bin".data <:+: "File input with size 1b cannot be reinterpret as u16".data) :=
  ⟨rfl, rfl, by decide⟩

/-- C7 (amended): the file-open and mid-read diagnostics contain the offending
file path together with their specific description; the size-mismatch
diagnostic contains the file length and the display of the target type, but
not the file path. -/
theorem C7_message_contents (path : List Char) (os : String) (len : Nat) (t : Ty) :
    path <:+: (openErrorMsg path os).data
    ∧ ": Cannot open file: ".data <:+: (openErrorMsg path os).data
    ∧ path <:+: (readErrorMsg path os).data
    ∧ ": Error reading file: ".data <:+: (readErrorMsg path os).data
    ∧ (Nat.repr len).data <:+: (sizeMismatchMsg len t).data
    ∧ t.display.data <:+: (sizeMismatchMsg len t).data := by
  refine ⟨?_, ?_, ?_, ?_, ?_, ?_⟩
  · rw [openErrorMsg_data]
    exact ⟨[], ": Cannot open file: ".data ++ os.data, by simp⟩
  · rw [openErrorMsg_data]
    exact infix_mid path _ os.data
  · rw [readErrorMsg_data]
    exact ⟨[], ": Error reading file: ".data ++ os.data, by simp⟩
  · rw [readErrorMsg_data]
    exact infix_mid path _ os.data
  · rw [sizeMismatchMsg_data]
    exact infix_mid _ _ _
  · rw [sizeMismatchMsg_data]
    exact ⟨"File input with size ".data
        ++ ((Nat.repr len).data ++ "b cannot be reinterpret as ".data), [],
      by simp [List.append_assoc]⟩

/-- C8 counterexample: on the invocation text `"a\"b"` the parser terminates
the quoted path at the first `"` found — the escaped one — so the path parsed
is `a\` and the trailing `b"` is rejected as unsupported syntax, refuting the
claim that an escaped quote does not terminate the path. -/
theorem C8_counterexample :
    parseInput "\"a\\\"b\"".data
      = .error (.compileError "Unsupported syntax after file name 'b\"'") := rfl

/-- C8 (amended): for an invocation starting with a double quote, the path is
the characters strictly before the NEXT double-quote character, whether or not
it is preceded by a backslash, and parsing continues after it; with no further
double quote at all, parsing fails with the unterminated-path diagnostic. -/
theorem C8_quote_termination (path : List Char) (h : '"' ∉ path) :
    (∀ rest : List Char, parseInput ('"' :: (path ++ '"' :: rest)) = afterPath path rest)
    ∧ parseInput ('"' :: (path ++ ['"'])) = .ok ⟨path, .primitive .u8⟩
    ∧ parseInput ('"' :: path)
        = .error (.compileError "Missing '\"' at the end of file path") := by
  refine ⟨fun rest => parseInput_quoted_complete path rest h, ?_,
    parseInput_unterminated path h⟩
  rw [show (path ++ ['"']) = path ++ '"' :: ([] : List Char) from rfl,
    parseInput_quoted_complete path [] h, afterPath_nil]

/-- C8 witness: the quoted path `ab` with nothing after the closing quote
parses to the file `ab` with the default `u8` element type. -/
theorem C8_witness :
    ('"' ∉ ("ab".data : List Char))
    ∧ parseInput ('"' :: ("ab".data ++ ['"'])) = .ok ⟨"ab".data, .primitive .u8⟩ :=
  ⟨by decide, (C8_quote_termination "ab".data (by decide)).2.1⟩

/-- C9: noninterference of the logging toggle: for every value of the
`RUST_INCLUDE_BYTES_LOG` environment variable, every invocation text and every
file state, the literal token stream returned by the macro is identical; the
toggle only affects the side log channel. -/
theorem C9_log_noninterference (env₁ env₂ : Option String) (input : List Char)
    (fs : List Char → Except String (List Nat)) :
    (includeBytesFull env₁ input fs).1 = (includeBytesFull env₂ input fs).1 :=
  (includeBytesFull_fst env₁ input fs).trans (includeBytesFull_fst env₂ input fs).symm

/-- C10: with the 8-bit element type (the default), the emitter consumes every
byte of any slice it is given, so the streaming loop carries no remainder to
end of file and succeeds for a file of any length — a `SizeMismatch` failure
is impossible. -/
theorem C10_u8_total_consumption (bytes file : List Nat) :
    ((Ty.primitive .u8).writeBytes bytes).2 = bytes.length
    ∧ runLoop (.primitive .u8) file
        = .ok (["["] ++ ((Ty.primitive .u8).writeBytes file).1 ++ ["]"]) := by
  refine ⟨rfl, ?_⟩
  rw [runLoop_spec (.primitive .u8) (by decide) (by decide) file]
  rw [show (Ty.primitive Primitive.u8).groupSize = 1 from rfl, if_pos (Nat.mod_one _)]

end IncludeBytes
